import Mathlib

/-!
Verification of the agentic-company-search repository.

Shallow embedding of the retry/backoff policy (`src/agents/base.py`), the
two-stage search-then-structure pipeline (`src/agents/summits.py`,
`src/agents/internal/structurize.py`, `src/adapters/geminiadapter.py`),
the aggregation service (`src/service/companies_service/service.py`),
the batch runner (`src/service/companies_service/batch_service.py`),
the post-processing filter (`process_companies.py`) and the pydantic
data model (`src/models/*`).

Effects are made explicit: a wrapped fallible operation becomes a family
`f : ℕ → Except E A` giving the outcome of its i-th invocation, and the
retry wrapper returns, beside its result, the list of delays slept and the
number of invocations performed.  Delays are rationals (Python floats are
idealized as exact arithmetic, which is what the spec's formula states).
-/

namespace AgenticSearch

/-- `BaseAgent._calculate_delay` (src/agents/base.py:33-45):
`delay = retry_base_delay * retry_exponential_base ** attempt`,
capped at `retry_max_delay`. -/
def calculateDelay (base expBase maxDelay : ℚ) (attempt : ℕ) : ℚ :=
  min (base * expBase ^ attempt) maxDelay

/-- Outcome of a retry run: the result (`Except.error none` models Python
reaching `raise last_exception` with `last_exception = None`, possible only
when the attempt count is 0), the delays slept, in order, and the number of
invocations of the wrapped operation. -/
structure RetryTrace (E A : Type) where
  result : Except (Option E) A
  delays : List ℚ
  calls : ℕ
deriving Repr

/-- The loop of `BaseAgent._retry_with_backoff` (src/agents/base.py:80-104),
recursing on the number of remaining loop iterations.  `attempt` is the
0-indexed number of the next attempt, `last` the last exception caught so
far.  On failure, when further iterations remain (Python's
`attempt < attempts - 1`) the loop sleeps `_calculate_delay attempt` and
retries; after the final failed iteration the loop ends and
`raise last_exception` re-raises the stored exception unchanged. -/
def retryGo (base expBase maxDelay : ℚ) (f : ℕ → Except E A)
    (last : Option E) (attempt : ℕ) : ℕ → RetryTrace E A
  | 0 => ⟨.error last, [], 0⟩
  | remaining + 1 =>
    match f attempt with
    | .ok a => ⟨.ok a, [], 1⟩
    | .error e =>
      if remaining = 0 then ⟨.error (some e), [], 1⟩
      else
        let t := retryGo base expBase maxDelay f (some e) (attempt + 1) remaining
        ⟨t.result, calculateDelay base expBase maxDelay attempt :: t.delays, t.calls + 1⟩

/-- `BaseAgent._retry_with_backoff` (src/agents/base.py:47-104): run the
zero-argument operation up to `attempts` times, starting at attempt 0 with
no exception stored. -/
def retryWithBackoff (base expBase maxDelay : ℚ) (f : ℕ → Except E A)
    (attempts : ℕ) : RetryTrace E A :=
  retryGo base expBase maxDelay f none 0 attempts

/-- Boolean test that an invocation outcome is a failure. -/
def isErr : Except E A → Bool
  | .error _ => true
  | .ok _ => false

/-- The exception carried by a failing outcome, if any. -/
def errOf : Except E A → Option E
  | .error e => some e
  | .ok _ => none

lemma retryGo_calls_le (base expBase maxDelay : ℚ) (f : ℕ → Except E A)
    (last : Option E) (attempt remaining : ℕ) :
    (retryGo base expBase maxDelay f last attempt remaining).calls ≤ remaining := by
  induction remaining generalizing last attempt with
  | zero => simp [retryGo]
  | succ r ih =>
    simp only [retryGo]
    cases hf : f attempt with
    | ok a => simp
    | error e =>
      simp only
      split
      · simp
      · have := ih (some e) (attempt + 1)
        simp only
        omega

lemma retryGo_calls_pos (base expBase maxDelay : ℚ) (f : ℕ → Except E A)
    (last : Option E) (attempt remaining : ℕ) (h : 0 < remaining) :
    0 < (retryGo base expBase maxDelay f last attempt remaining).calls := by
  cases remaining with
  | zero => exact absurd h (by simp)
  | succ r =>
    simp only [retryGo]
    cases hf : f attempt with
    | ok a => simp
    | error e =>
      simp only
      split
      · simp
      · simp only
        omega

lemma retryGo_delays (base expBase maxDelay : ℚ) (f : ℕ → Except E A)
    (last : Option E) (attempt remaining : ℕ) :
    (retryGo base expBase maxDelay f last attempt remaining).delays =
      (List.range' attempt ((retryGo base expBase maxDelay f last attempt remaining).calls - 1)).map
        (calculateDelay base expBase maxDelay) := by
  induction remaining generalizing last attempt with
  | zero => simp [retryGo]
  | succ r ih =>
    simp only [retryGo]
    cases hf : f attempt with
    | ok a => simp
    | error e =>
      simp only
      split
      · simp
      · rename_i hr
        have hpos := retryGo_calls_pos base expBase maxDelay f (some e) (attempt + 1) r
          (Nat.pos_of_ne_zero hr)
        have hrec := ih (some e) (attempt + 1)
        simp only
        rw [hrec]
        have hc : (retryGo base expBase maxDelay f (some e) (attempt + 1) r).calls + 1 - 1 =
            ((retryGo base expBase maxDelay f (some e) (attempt + 1) r).calls - 1) + 1 := by
          omega
        rw [hc, List.range'_succ, List.map_cons]

/-- C1. For every attempt cap `N ≥ 1`, base delay `b > 0`, factor `g ≥ 1` and
ceiling `c ≥ 0`, `_retry_with_backoff` invokes the wrapped operation at most
`N` times, and the delays it sleeps are exactly
`min (b * g ^ attempt) c` for `attempt = 0, …, calls - 2`: one delay before
each retry, none after the final attempt. -/
theorem retry_backoff_delay_spec (b g c : ℚ) (f : ℕ → Except E A) (N : ℕ)
    (hN : 1 ≤ N) (hb : 0 < b) (hg : 1 ≤ g) (hc : 0 ≤ c) :
    (retryWithBackoff b g c f N).calls ≤ N ∧
    (retryWithBackoff b g c f N).delays =
      (List.range ((retryWithBackoff b g c f N).calls - 1)).map
        (fun attempt => min (b * g ^ attempt) c) ∧
    (retryWithBackoff b g c f N).delays.length =
      (retryWithBackoff b g c f N).calls - 1 := by
  refine ⟨retryGo_calls_le b g c f none 0 N, ?_, ?_⟩
  · have h := retryGo_delays b g c f none 0 N
    rw [retryWithBackoff, h, ← List.range_eq_range']
    rfl
  · have h := retryGo_delays b g c f none 0 N
    rw [retryWithBackoff, h]
    simp

/-- Witness for C1 at `b = 1`, `g = 2`, `c = 100`, `N = 3`, an operation
failing on every attempt. -/
theorem retry_backoff_delay_spec_witness :
    (1 ≤ 3 ∧ (0 : ℚ) < 1 ∧ (1 : ℚ) ≤ 2 ∧ (0 : ℚ) ≤ 100) ∧
    ((retryWithBackoff 1 2 100 (fun _ => (Except.error 0 : Except ℕ ℕ)) 3).calls ≤ 3 ∧
     (retryWithBackoff 1 2 100 (fun _ => (Except.error 0 : Except ℕ ℕ)) 3).delays =
       (List.range ((retryWithBackoff 1 2 100 (fun _ => (Except.error 0 : Except ℕ ℕ)) 3).calls - 1)).map
         (fun attempt => min ((1 : ℚ) * 2 ^ attempt) 100) ∧
     (retryWithBackoff 1 2 100 (fun _ => (Except.error 0 : Except ℕ ℕ)) 3).delays.length =
       (retryWithBackoff 1 2 100 (fun _ => (Except.error 0 : Except ℕ ℕ)) 3).calls - 1) :=
  ⟨⟨by norm_num, by norm_num, by norm_num, by norm_num⟩,
   retry_backoff_delay_spec 1 2 100 (fun _ => (Except.error 0 : Except ℕ ℕ)) 3
     (by norm_num) (by norm_num) (by norm_num) (by norm_num)⟩

lemma retryGo_all_fail (base expBase maxDelay : ℚ) (f : ℕ → Except E A)
    (last : Option E) (attempt remaining : ℕ) (hrem : 0 < remaining)
    (hfail : ∀ i, i < remaining → isErr (f (attempt + i)) = true) :
    (retryGo base expBase maxDelay f last attempt remaining).result =
      .error (errOf (f (attempt + remaining - 1))) ∧
    (retryGo base expBase maxDelay f last attempt remaining).calls = remaining := by
  induction remaining generalizing last attempt with
  | zero => exact absurd hrem (by simp)
  | succ r ih =>
    have h0 : isErr (f (attempt + 0)) = true := hfail 0 (by omega)
    simp only [retryGo]
    cases hf : f attempt with
    | ok a => rw [Nat.add_zero, hf] at h0; simp [isErr] at h0
    | error e =>
      simp only
      split
      · rename_i hr
        subst hr
        rw [Nat.add_sub_cancel, hf]
        simp [errOf]
      · rename_i hr
        have hrpos : 0 < r := Nat.pos_of_ne_zero hr
        have hfail' : ∀ i, i < r → isErr (f (attempt + 1 + i)) = true := by
          intro i hi
          have := hfail (i + 1) (by omega)
          rwa [show attempt + (i + 1) = attempt + 1 + i by omega] at this
        obtain ⟨hres, hcalls⟩ := ih (some e) (attempt + 1) hrpos hfail'
        refine ⟨?_, ?_⟩
        · simp only
          rw [hres, show attempt + 1 + r - 1 = attempt + (r + 1) - 1 by omega]
        · simp only
          omega

lemma retryGo_success (base expBase maxDelay : ℚ) (f : ℕ → Except E A)
    (last : Option E) (attempt remaining k : ℕ) (a : A)
    (hk : k < remaining)
    (hbefore : ∀ i, i < k → isErr (f (attempt + i)) = true)
    (hok : f (attempt + k) = .ok a) :
    (retryGo base expBase maxDelay f last attempt remaining).result = .ok a ∧
    (retryGo base expBase maxDelay f last attempt remaining).calls = k + 1 := by
  induction k generalizing last attempt remaining with
  | zero =>
    cases remaining with
    | zero => exact absurd hk (by simp)
    | succ r =>
      rw [Nat.add_zero] at hok
      simp [retryGo, hok]
  | succ k' ih =>
    cases remaining with
    | zero => exact absurd hk (by simp)
    | succ r =>
      have h0 : isErr (f (attempt + 0)) = true := hbefore 0 (by omega)
      rw [Nat.add_zero] at h0
      simp only [retryGo]
      cases hf : f attempt with
      | ok a' => rw [hf] at h0; simp [isErr] at h0
      | error e =>
        simp only
        have hr : r ≠ 0 := by omega
        rw [if_neg hr]
        have hbefore' : ∀ i, i < k' → isErr (f (attempt + 1 + i)) = true := by
          intro i hi
          have := hbefore (i + 1) (by omega)
          rwa [show attempt + (i + 1) = attempt + 1 + i by omega] at this
        have hok' : f (attempt + 1 + k') = .ok a := by
          rwa [show attempt + 1 + k' = attempt + (k' + 1) by omega]
        obtain ⟨hres, hcalls⟩ := ih (some e) (attempt + 1) r (by omega) hbefore' hok'
        exact ⟨hres, by simp only; omega⟩

/-- C2. With attempt cap `N ≥ 1`: if the wrapped operation fails on all `N`
attempts, `_retry_with_backoff` re-raises exactly the exception of the final
(`N`-th) attempt after exactly `N` invocations; if it first succeeds on
attempt `k < N` (0-indexed), the wrapper returns that attempt's result
after exactly `k + 1` invocations and `k` delays. -/
theorem retry_final_raise_or_return (b g c : ℚ) (f : ℕ → Except E A) (N : ℕ)
    (hN : 1 ≤ N) :
    ((∀ i, i < N → isErr (f i) = true) → ∀ e, f (N - 1) = .error e →
      (retryWithBackoff b g c f N).result = .error (some e) ∧
      (retryWithBackoff b g c f N).calls = N) ∧
    (∀ k a, k < N → (∀ i, i < k → isErr (f i) = true) → f k = .ok a →
      (retryWithBackoff b g c f N).result = .ok a ∧
      (retryWithBackoff b g c f N).calls = k + 1 ∧
      (retryWithBackoff b g c f N).delays.length = k) := by
  constructor
  · intro hfail e he
    have hfail0 : ∀ i, i < N → isErr (f (0 + i)) = true := by
      intro i hi; rw [Nat.zero_add]; exact hfail i hi
    obtain ⟨hres, hcalls⟩ := retryGo_all_fail b g c f none 0 N (by omega) hfail0
    refine ⟨?_, hcalls⟩
    rw [retryWithBackoff, hres, Nat.zero_add, he]
    rfl
  · intro k a hk hbefore hok
    have hbefore0 : ∀ i, i < k → isErr (f (0 + i)) = true := by
      intro i hi; rw [Nat.zero_add]; exact hbefore i hi
    have hok0 : f (0 + k) = .ok a := by rwa [Nat.zero_add]
    obtain ⟨hres, hcalls⟩ := retryGo_success b g c f none 0 N k a hk hbefore0 hok0
    refine ⟨hres, hcalls, ?_⟩
    have hd := retryGo_delays b g c f none 0 N
    simp only [retryWithBackoff] at hcalls ⊢
    rw [hd, hcalls]
    simp

/-- Witness for C2 at `N = 2` with an operation failing on both attempts. -/
theorem retry_final_raise_or_return_witness :
    1 ≤ 2 ∧
    (((∀ i, i < 2 → isErr ((fun _ => (Except.error 5 : Except ℕ ℕ)) i) = true) →
      ∀ e, (fun _ => (Except.error 5 : Except ℕ ℕ)) (2 - 1) = .error e →
        (retryWithBackoff 1 2 100 (fun _ => (Except.error 5 : Except ℕ ℕ)) 2).result = .error (some e) ∧
        (retryWithBackoff 1 2 100 (fun _ => (Except.error 5 : Except ℕ ℕ)) 2).calls = 2) ∧
     (∀ k a, k < 2 → (∀ i, i < k → isErr ((fun _ => (Except.error 5 : Except ℕ ℕ)) i) = true) →
        (fun _ => (Except.error 5 : Except ℕ ℕ)) k = .ok a →
        (retryWithBackoff 1 2 100 (fun _ => (Except.error 5 : Except ℕ ℕ)) 2).result = .ok a ∧
        (retryWithBackoff 1 2 100 (fun _ => (Except.error 5 : Except ℕ ℕ)) 2).calls = k + 1 ∧
        (retryWithBackoff 1 2 100 (fun _ => (Except.error 5 : Except ℕ ℕ)) 2).delays.length = k)) :=
  ⟨by norm_num, retry_final_raise_or_return 1 2 100 (fun _ => (Except.error 5 : Except ℕ ℕ)) 2 (by norm_num)⟩

/-- Failure kinds of a schema-constrained model call as seen by the retry
wrapper: `validationError` models pydantic's `ValidationError` raised by
`model_validate_json` (src/adapters/geminiadapter.py:168), `apiError` any
other exception raised by the underlying API call. -/
inductive LLMError where
  | validationError : LLMError
  | apiError : LLMError
deriving DecidableEq, Repr

/-- `GeminiAdapter.generate_content_with_schema`
(src/adapters/geminiadapter.py:105-168): performs the model call and then
parses/validates the JSON response text into the schema
(`response_schema.model_validate_json(response.text)`); a parse failure
raises `ValidationError` from inside this function. -/
def generate_content_with_schema (respond : Except LLMError String)
    (validate : String → Except LLMError T) : Except LLMError T :=
  respond.bind validate

/-- `StructurizeAgent.structurize` (src/agents/internal/structurize.py:33-73):
wraps the schema-constrained generation call — including its JSON parsing
and validation — in `_retry_with_backoff`.  `respond i` is the raw network
response of the i-th invocation; `validate` the schema validation. -/
def structurize (b g c : ℚ) (respond : ℕ → Except LLMError String)
    (validate : String → Except LLMError T) (attempts : ℕ) :
    RetryTrace LLMError T :=
  retryWithBackoff b g c (fun i => generate_content_with_schema (respond i) validate) attempts

/-- Trace of a full summit search: the result, the number of invocations of
the grounded free-text generation, and the number of invocations of the
schema-constrained generation. -/
structure SearchTrace (T : Type) where
  result : Except (Option LLMError) T
  genCalls : ℕ
  schemaCalls : ℕ
deriving Repr

/-- `SummitAgent.search` (src/agents/summits.py:27-53): step 1 wraps the
grounded free-text generation in `_retry_with_backoff`; step 2 passes the
raw text to `StructurizeAgent.structurize`, which is not wrapped in any
further retry by this caller.  `schemaRespond raw i` is the network response
of the i-th schema call for raw text `raw`. -/
def SummitAgent.search (b g c : ℚ) (gen : ℕ → Except LLMError String)
    (schemaRespond : String → ℕ → Except LLMError String)
    (validate : String → Except LLMError T) (attempts : ℕ) : SearchTrace T :=
  let step1 := retryWithBackoff b g c gen attempts
  match step1.result with
  | .error e => ⟨.error e, step1.calls, 0⟩
  | .ok raw =>
    let step2 := structurize b g c (schemaRespond raw) validate attempts
    ⟨step2.result, step1.calls, step2.calls⟩

/-- Schema-call network responses for the C3 counterexample: the first
invocation yields unparseable output, the second parseable output. -/
def c3Respond : ℕ → Except LLMError String :=
  fun i => if i = 0 then .ok "bad" else .ok "good"

/-- Schema validation for the C3 counterexample: "good" parses, anything
else fails with ValidationError. -/
def c3Validate : String → Except LLMError ℕ :=
  fun s => if s = "good" then .ok 42 else .error .validationError

/-- C3 counterexample. With attempt cap 2, a first schema call whose output
fails validation and a second that succeeds: the Structuring Step performs
a second schema call after the ValidationError and returns the second
attempt's result — the ValidationError was retried at the Structuring-Step
layer itself, not propagated to the caller. -/
theorem structurize_retries_validation_error :
    (structurize 1 2 10 c3Respond c3Validate 2).calls = 2 ∧
    (structurize 1 2 10 c3Respond c3Validate 2).result = .ok 42 := by
  constructor <;> rfl

/-- C3 amended. The `ValidationError` from a failed parse is raised inside
the call that the Structuring Step itself wraps in the Retry Policy, so a
validation failure is retried at the Structuring-Step layer: if every one
of the `N ≥ 1` schema calls fails — the last with a ValidationError — the
step performs exactly `N` schema calls and only then propagates the final
ValidationError unchanged; and the caller (Summit Search) wraps only its
free-text generation in the Retry Policy, not the structuring call, so when
generation succeeds immediately it performs 1 generation call while the `N`
validation retries all happen inside the structuring step. -/
theorem structurize_validation_retry_behavior (b g c : ℚ) (gen0 : String)
    (schemaRespond : String → ℕ → Except LLMError String)
    (validate : String → Except LLMError T) (N : ℕ) (hN : 1 ≤ N)
    (hfail : ∀ i, i < N →
      isErr (generate_content_with_schema (schemaRespond gen0 i) validate) = true)
    (hlast : generate_content_with_schema (schemaRespond gen0 (N - 1)) validate =
      .error .validationError) :
    (structurize b g c (schemaRespond gen0) validate N).result =
      .error (some .validationError) ∧
    (structurize b g c (schemaRespond gen0) validate N).calls = N ∧
    (∀ gen : ℕ → Except LLMError String, gen 0 = .ok gen0 →
      (SummitAgent.search b g c gen schemaRespond validate N).genCalls = 1 ∧
      (SummitAgent.search b g c gen schemaRespond validate N).schemaCalls = N ∧
      (SummitAgent.search b g c gen schemaRespond validate N).result =
        .error (some .validationError)) := by
  have hfail0 : ∀ i, i < N →
      isErr ((fun i => generate_content_with_schema (schemaRespond gen0 i) validate) (0 + i)) = true := by
    intro i hi
    simpa using hfail i hi
  obtain ⟨hres, hcalls⟩ := retryGo_all_fail b g c
    (fun i => generate_content_with_schema (schemaRespond gen0 i) validate) none 0 N
    (by omega) hfail0
  rw [Nat.zero_add] at hres
  have hres' : (structurize b g c (schemaRespond gen0) validate N).result =
      .error (some .validationError) := by
    rw [structurize, retryWithBackoff, hres, hlast]
    rfl
  have hcalls' : (structurize b g c (schemaRespond gen0) validate N).calls = N := hcalls
  refine ⟨hres', hcalls', ?_⟩
  intro gen hgen
  have hok0 : gen (0 + 0) = .ok gen0 := by simpa using hgen
  obtain ⟨hgres, hgcalls⟩ := retryGo_success b g c gen none 0 N 0 gen0
    (by omega) (by intro i hi; omega) hok0
  have hgres' : (retryWithBackoff b g c gen N).result = .ok gen0 := hgres
  have hgcalls' : (retryWithBackoff b g c gen N).calls = 1 := by
    rw [retryWithBackoff, hgcalls]
  refine ⟨?_, ?_, ?_⟩ <;>
    simp only [SummitAgent.search, hgres', hgcalls', hres', hcalls']

/-- Witness for the amended C3 at `N = 2` with every schema call failing
validation and a generation call succeeding immediately. -/
theorem structurize_validation_retry_behavior_witness :
    1 ≤ 2 ∧
    ((structurize 1 2 10 (fun _ => (Except.ok "bad" : Except LLMError String)) c3Validate 2).result =
      .error (some .validationError) ∧
     (structurize 1 2 10 (fun _ => (Except.ok "bad" : Except LLMError String)) c3Validate 2).calls = 2 ∧
     (∀ gen : ℕ → Except LLMError String, gen 0 = .ok "raw" →
       (SummitAgent.search 1 2 10 gen (fun _ _ => (Except.ok "bad" : Except LLMError String)) c3Validate 2).genCalls = 1 ∧
       (SummitAgent.search 1 2 10 gen (fun _ _ => (Except.ok "bad" : Except LLMError String)) c3Validate 2).schemaCalls = 2 ∧
       (SummitAgent.search 1 2 10 gen (fun _ _ => (Except.ok "bad" : Except LLMError String)) c3Validate 2).result =
         .error (some .validationError))) :=
  ⟨by norm_num,
   structurize_validation_retry_behavior 1 2 10 "raw"
     (fun _ _ => (Except.ok "bad" : Except LLMError String))
     c3Validate 2 (by norm_num)
     (by intro i hi; rfl)
     (by rfl)⟩

/-- `CompanyScale` (src/models/enums.py:6-16): company size classification,
a closed string enumeration. -/
inductive CompanyScale where
  | startup : CompanyScale
  | small : CompanyScale
  | medium : CompanyScale
  | large : CompanyScale
  | enterprise : CompanyScale
deriving DecidableEq, Repr

/-- `CompanyField` (src/models/enums.py:19-49): company industry
classification, a closed string enumeration of 19 sector tags plus
"other". -/
inductive CompanyField where
  | software : CompanyField
  | artificial_intelligence : CompanyField
  | cloud_computing : CompanyField
  | cybersecurity : CompanyField
  | data_analytics : CompanyField
  | gaming : CompanyField
  | hardware : CompanyField
  | semiconductors : CompanyField
  | telecommunications : CompanyField
  | fintech : CompanyField
  | healthcare : CompanyField
  | e_commerce : CompanyField
  | automotive : CompanyField
  | aerospace : CompanyField
  | energy : CompanyField
  | manufacturing : CompanyField
  | media_entertainment : CompanyField
  | education : CompanyField
  | consulting : CompanyField
  | other : CompanyField
deriving DecidableEq, Repr

/-- `Summit` (src/models/output/summit.py:8-24). -/
structure Summit where
  name : String
  dates : String
  categories : List String
  website : Option String
  venue : Option String
deriving DecidableEq, Repr

/-- `Company` (src/models/output/company.py:9-22). -/
structure Company where
  name : String
  origin_country : String
  field : CompanyField
  scale : CompanyScale
deriving DecidableEq, Repr

/-- `SummitCompanies` (src/models/output/summit_companies.py:8-17). -/
structure SummitCompanies where
  summit : Summit
  companies : List Company
deriving DecidableEq, Repr

/-- Trace of an aggregation run: the result and the summits on which the
Company Search was invoked, in invocation order. -/
structure AggTrace (E : Type) where
  result : Except E (List SummitCompanies)
  invoked : List Summit

/-- The summit loop of `CompaniesService.get_companies_by_location`
(src/service/companies_service/service.py:33-43): for each summit in order,
invoke the Company Search (`companies_agent.search`) and append a
`SummitCompanies(summit=summit, companies=companies_output.companies)`
pairing; any raised failure propagates immediately, aborting the remaining
iterations. -/
def aggLoop (companySearch : Summit → Except E (List Company)) :
    List Summit → AggTrace E
  | [] => ⟨.ok [], []⟩
  | s :: rest =>
    match companySearch s with
    | .error e => ⟨.error e, [s]⟩
    | .ok comps =>
      let t := aggLoop companySearch rest
      ⟨t.result.map (fun l => ⟨s, comps⟩ :: l), s :: t.invoked⟩

/-- `CompaniesService.get_companies_by_location`
(src/service/companies_service/service.py:21-47): run the Summit Search
once, then the summit loop over its result. -/
def get_companies_by_location (summitSearch : Except E (List Summit))
    (companySearch : Summit → Except E (List Company)) : AggTrace E :=
  match summitSearch with
  | .error e => ⟨.error e, []⟩
  | .ok summits => aggLoop companySearch summits

/-- The payload of a successful outcome, with a default for failures. -/
def okD (x : Except E A) (d : A) : A :=
  match x with
  | .ok a => a
  | .error _ => d

lemma aggLoop_ok (companySearch : Summit → Except E (List Company))
    (summits : List Summit)
    (hok : ∀ s ∈ summits, isErr (companySearch s) = false) :
    (aggLoop companySearch summits).result =
      .ok (summits.map (fun s => ⟨s, okD (companySearch s) []⟩)) ∧
    (aggLoop companySearch summits).invoked = summits := by
  induction summits with
  | nil => exact ⟨rfl, rfl⟩
  | cons s rest ih =>
    have hs : isErr (companySearch s) = false := hok s (by simp)
    obtain ⟨ihr, ihi⟩ := ih (fun x hx => hok x (by simp [hx]))
    simp only [aggLoop]
    cases hcs : companySearch s with
    | error e => rw [hcs] at hs; simp [isErr] at hs
    | ok comps =>
      simp only
      refine ⟨?_, ?_⟩
      · rw [ihr]
        simp [hcs, okD, Except.map]
      · simp [ihi]

lemma aggLoop_fail (companySearch : Summit → Except E (List Company))
    (pre : List Summit) (s0 : Summit) (post : List Summit) (e : E)
    (hpre : ∀ s ∈ pre, isErr (companySearch s) = false)
    (hfail : companySearch s0 = .error e) :
    (aggLoop companySearch (pre ++ s0 :: post)).result = .error e ∧
    (aggLoop companySearch (pre ++ s0 :: post)).invoked = pre ++ [s0] := by
  induction pre with
  | nil =>
    simp [aggLoop, hfail]
  | cons p rest ih =>
    have hp : isErr (companySearch p) = false := hpre p (by simp)
    obtain ⟨ihr, ihi⟩ := ih (fun x hx => hpre x (by simp [hx]))
    simp only [List.cons_append, aggLoop]
    cases hcp : companySearch p with
    | error e' => rw [hcp] at hp; simp [isErr] at hp
    | ok comps =>
      simp only
      refine ⟨?_, ?_⟩
      · simp [ihr, Except.map]
      · simp [ihi]

/-- C4. For a Summit Search result of `M` summits: when every Company
Search call succeeds, the Aggregation Service invokes Company Search once
per summit in input order (so exactly `M` times) and returns the list
pairing the i-th input summit, unchanged, with the i-th Company Search
result; when the Company Search fails on some summit, the failure
propagates immediately and the remaining summits are never visited. -/
theorem aggregation_spec (summits : List Summit)
    (companySearch : Summit → Except E (List Company)) :
    ((∀ s ∈ summits, isErr (companySearch s) = false) →
      (aggLoop companySearch summits).result =
        .ok (summits.map (fun s => ⟨s, okD (companySearch s) []⟩)) ∧
      (aggLoop companySearch summits).invoked = summits ∧
      (get_companies_by_location (.ok summits) companySearch).result =
        .ok (summits.map (fun s => ⟨s, okD (companySearch s) []⟩))) ∧
    (∀ pre s0 post e, summits = pre ++ s0 :: post →
      (∀ s ∈ pre, isErr (companySearch s) = false) →
      companySearch s0 = .error e →
      (aggLoop companySearch summits).result = .error e ∧
      (aggLoop companySearch summits).invoked = pre ++ [s0]) := by
  constructor
  · intro hok
    obtain ⟨h1, h2⟩ := aggLoop_ok companySearch summits hok
    exact ⟨h1, h2, by simpa [get_companies_by_location] using h1⟩
  · intro pre s0 post e hsplit hpre hfail
    subst hsplit
    exact aggLoop_fail companySearch pre s0 post e hpre hfail

/-- Concrete summit used by witnesses: the aggregation witness runs the
Aggregation Service on two summits with an everywhere-succeeding Company
Search. -/
def summitA : Summit :=
  ⟨"Web Summit 2025", "November 10-13, 2025", ["AI"], some "https://websummit.com", some "Lisbon"⟩

/-- Second concrete summit for the aggregation witness. -/
def summitB : Summit :=
  ⟨"Slush 2025", "November 19-20, 2025", ["Startups"], none, some "Helsinki"⟩

/-- A concrete company for witnesses. -/
def companyX : Company := ⟨"Acme", "Finland", .software, .startup⟩

/-- Witness for C4 on the two concrete summits with a Company Search that
always succeeds with one company. -/
theorem aggregation_spec_witness :
    (((∀ s ∈ [summitA, summitB],
        isErr ((fun _ => (Except.ok [companyX] : Except ℕ (List Company))) s) = false) →
      (aggLoop (fun _ => (Except.ok [companyX] : Except ℕ (List Company))) [summitA, summitB]).result =
        .ok ([summitA, summitB].map (fun s =>
          ⟨s, okD ((fun _ => (Except.ok [companyX] : Except ℕ (List Company))) s) []⟩)) ∧
      (aggLoop (fun _ => (Except.ok [companyX] : Except ℕ (List Company))) [summitA, summitB]).invoked =
        [summitA, summitB] ∧
      (get_companies_by_location (.ok [summitA, summitB])
          (fun _ => (Except.ok [companyX] : Except ℕ (List Company)))).result =
        .ok ([summitA, summitB].map (fun s =>
          ⟨s, okD ((fun _ => (Except.ok [companyX] : Except ℕ (List Company))) s) []⟩))) ∧
     (∀ pre s0 post e, [summitA, summitB] = pre ++ s0 :: post →
      (∀ s ∈ pre,
        isErr ((fun _ => (Except.ok [companyX] : Except ℕ (List Company))) s) = false) →
      (fun _ => (Except.ok [companyX] : Except ℕ (List Company))) s0 = .error e →
      (aggLoop (fun _ => (Except.ok [companyX] : Except ℕ (List Company))) [summitA, summitB]).result =
        .error e ∧
      (aggLoop (fun _ => (Except.ok [companyX] : Except ℕ (List Company))) [summitA, summitB]).invoked =
        pre ++ [s0])) ∧
    (∀ s ∈ [summitA, summitB],
      isErr ((fun _ => (Except.ok [companyX] : Except ℕ (List Company))) s) = false) :=
  ⟨aggregation_spec [summitA, summitB] (fun _ => (Except.ok [companyX] : Except ℕ (List Company))),
   by intro s _; rfl⟩

/-- `BatchCompanyService.SLEEP_SUCCESS` (batch_service.py:37). -/
def SLEEP_SUCCESS : ℕ := 60

/-- `BatchCompanyService.SLEEP_ERROR` (batch_service.py:38). -/
def SLEEP_ERROR : ℕ := 180

/-- Trace of a batch run: locations for which a results file was written
(in order), the success/error counters, the recorded failed locations (in
order) and the sleeps performed (in order). -/
structure BatchTrace where
  written : List String
  successCount : ℕ
  errorCount : ℕ
  failedLocations : List String
  sleeps : List ℕ
deriving DecidableEq, Repr

/-- The location loop of `BatchCompanyService.run`
(src/service/companies_service/batch_service.py:43-82): for each location,
try the aggregation call; on success save the results (`_save_results`,
modelled as recording the location written) and sleep `SLEEP_SUCCESS` if
more locations remain (`i < total`); on any exception record the location
as failed and sleep `SLEEP_ERROR` if more locations remain; always continue
with the next location.  `agg loc` is the outcome of
`get_companies_by_location` for `loc`. -/
def runBatch (agg : String → Except E (List SummitCompanies)) :
    List String → BatchTrace
  | [] => ⟨[], 0, 0, [], []⟩
  | loc :: rest =>
    let t := runBatch agg rest
    match agg loc with
    | .ok _ =>
      ⟨loc :: t.written, t.successCount + 1, t.errorCount, t.failedLocations,
        (if rest.isEmpty then [] else [SLEEP_SUCCESS]) ++ t.sleeps⟩
    | .error _ =>
      ⟨t.written, t.successCount, t.errorCount + 1, loc :: t.failedLocations,
        (if rest.isEmpty then [] else [SLEEP_ERROR]) ++ t.sleeps⟩

lemma runBatch_filter (agg : String → Except E (List SummitCompanies))
    (locations : List String) :
    (runBatch agg locations).written =
      locations.filter (fun l => !isErr (agg l)) ∧
    (runBatch agg locations).failedLocations =
      locations.filter (fun l => isErr (agg l)) ∧
    (runBatch agg locations).successCount +
      (runBatch agg locations).errorCount = locations.length := by
  induction locations with
  | nil => exact ⟨rfl, rfl, rfl⟩
  | cons loc rest ih =>
    obtain ⟨ihw, ihf, ihc⟩ := ih
    simp only [runBatch]
    cases hl : agg loc with
    | ok v =>
      have : isErr (agg loc) = false := by rw [hl]; rfl
      refine ⟨?_, ?_, ?_⟩ <;> simp [List.filter, this, ihw, ihf] <;> omega
    | error e =>
      have : isErr (agg loc) = true := by rw [hl]; rfl
      refine ⟨?_, ?_, ?_⟩ <;> simp [List.filter, this, ihw, ihf] <;> omega

/-- C5. For locations `[A, B, C]` where the aggregation call fails for `B`
and succeeds for `A` and `C`, the Batch Runner writes an output file for
`A` and for `C`, records `B` as the sole failed location with success count
2 and failure count 1, and — in general — processes every location: the
written and failed lists partition the input by the aggregation outcome,
so one failing location never aborts the remaining ones (the run itself is
a total function: it always completes without raising). -/
theorem batch_isolates_failures (agg : String → Except E (List SummitCompanies))
    (A B C : String)
    (hA : isErr (agg A) = false) (hB : isErr (agg B) = true)
    (hC : isErr (agg C) = false) :
    (runBatch agg [A, B, C]).written = [A, C] ∧
    (runBatch agg [A, B, C]).successCount = 2 ∧
    (runBatch agg [A, B, C]).errorCount = 1 ∧
    (runBatch agg [A, B, C]).failedLocations = [B] ∧
    (runBatch agg [A, B, C]).sleeps = [SLEEP_SUCCESS, SLEEP_ERROR] ∧
    (∀ locations : List String,
      (runBatch agg locations).written =
        locations.filter (fun l => !isErr (agg l)) ∧
      (runBatch agg locations).failedLocations =
        locations.filter (fun l => isErr (agg l)) ∧
      (runBatch agg locations).successCount +
        (runBatch agg locations).errorCount = locations.length) := by
  have expand : ∀ l, isErr (agg l) = false → ∃ v, agg l = .ok v := by
    intro l hl
    cases h : agg l with
    | ok v => exact ⟨v, rfl⟩
    | error e => rw [h] at hl; simp [isErr] at hl
  have expandE : ∀ l, isErr (agg l) = true → ∃ e, agg l = .error e := by
    intro l hl
    cases h : agg l with
    | ok v => rw [h] at hl; simp [isErr] at hl
    | error e => exact ⟨e, rfl⟩
  obtain ⟨vA, hvA⟩ := expand A hA
  obtain ⟨eB, heB⟩ := expandE B hB
  obtain ⟨vC, hvC⟩ := expand C hC
  refine ⟨?_, ?_, ?_, ?_, ?_, fun locations => runBatch_filter agg locations⟩ <;>
    simp [runBatch, hvA, heB, hvC]

/-- Witness for C5 with a concrete aggregation outcome: `"Berlin"` and
`"Paris"` succeed, `"Amsterdam"` fails. -/
theorem batch_isolates_failures_witness :
    (isErr ((fun l => if l = "Amsterdam" then (Except.error 0 : Except ℕ (List SummitCompanies))
        else .ok []) "Berlin") = false ∧
     isErr ((fun l => if l = "Amsterdam" then (Except.error 0 : Except ℕ (List SummitCompanies))
        else .ok []) "Amsterdam") = true ∧
     isErr ((fun l => if l = "Amsterdam" then (Except.error 0 : Except ℕ (List SummitCompanies))
        else .ok []) "Paris") = false) ∧
    ((runBatch (fun l => if l = "Amsterdam" then (Except.error 0 : Except ℕ (List SummitCompanies))
        else .ok []) ["Berlin", "Amsterdam", "Paris"]).written = ["Berlin", "Paris"] ∧
     (runBatch (fun l => if l = "Amsterdam" then (Except.error 0 : Except ℕ (List SummitCompanies))
        else .ok []) ["Berlin", "Amsterdam", "Paris"]).successCount = 2 ∧
     (runBatch (fun l => if l = "Amsterdam" then (Except.error 0 : Except ℕ (List SummitCompanies))
        else .ok []) ["Berlin", "Amsterdam", "Paris"]).errorCount = 1 ∧
     (runBatch (fun l => if l = "Amsterdam" then (Except.error 0 : Except ℕ (List SummitCompanies))
        else .ok []) ["Berlin", "Amsterdam", "Paris"]).failedLocations = ["Amsterdam"] ∧
     (runBatch (fun l => if l = "Amsterdam" then (Except.error 0 : Except ℕ (List SummitCompanies))
        else .ok []) ["Berlin", "Amsterdam", "Paris"]).sleeps = [SLEEP_SUCCESS, SLEEP_ERROR] ∧
     (∀ locations : List String,
       (runBatch (fun l => if l = "Amsterdam" then (Except.error 0 : Except ℕ (List SummitCompanies))
          else .ok []) locations).written =
         locations.filter (fun l => !isErr ((fun l => if l = "Amsterdam"
            then (Except.error 0 : Except ℕ (List SummitCompanies)) else .ok []) l)) ∧
       (runBatch (fun l => if l = "Amsterdam" then (Except.error 0 : Except ℕ (List SummitCompanies))
          else .ok []) locations).failedLocations =
         locations.filter (fun l => isErr ((fun l => if l = "Amsterdam"
            then (Except.error 0 : Except ℕ (List SummitCompanies)) else .ok []) l)) ∧
       (runBatch (fun l => if l = "Amsterdam" then (Except.error 0 : Except ℕ (List SummitCompanies))
          else .ok []) locations).successCount +
         (runBatch (fun l => if l = "Amsterdam" then (Except.error 0 : Except ℕ (List SummitCompanies))
            else .ok []) locations).errorCount = locations.length)) :=
  ⟨⟨by rfl, by rfl, by rfl⟩,
   batch_isolates_failures
     (fun l => if l = "Amsterdam" then (Except.error 0 : Except ℕ (List SummitCompanies)) else .ok [])
     "Berlin" "Amsterdam" "Paris" (by rfl) (by rfl) (by rfl)⟩

/-- A company record as read from a results JSON file by
`process_companies.py` (a Python dict; an absent key is `none`).
`summitName` is the `"summit"` context key added by `extract_companies`. -/
structure CompanyRec where
  name : Option String
  origin_country : Option String
  field : Option String
  scale : Option String
  summitName : Option String
deriving DecidableEq, Repr

/-- One entry of a results JSON file: `summitName` models
`entry.get("summit", {}).get("name", "Unknown")`'s non-default part
(`none` when the summit dict or its name is missing), `companies` is
`none` when the entry has no `"companies"` key. -/
structure SummitEntry where
  summitName : Option String
  companies : Option (List CompanyRec)
deriving DecidableEq, Repr

/-- `extract_companies` (process_companies.py:22-34): flatten all companies
of all entries, in order, adding the summit name (default "Unknown") to
each company for context. -/
def extract_companies (summitData : List SummitEntry) : List CompanyRec :=
  (summitData.map (fun entry =>
    match entry.companies with
    | none => []
    | some cs => cs.map (fun c => { c with summitName := some (entry.summitName.getD "Unknown") }))).flatten

/-- Python `str.lower()`, modelled character-wise (the repository only
compares ASCII enum values, country names and company names). -/
def lowerStr (s : String) : String := String.mk (s.data.map Char.toLower)

/-- Python `str.strip()`: remove leading and trailing whitespace. -/
def stripStr (s : String) : String :=
  String.mk (((s.data.dropWhile Char.isWhitespace).reverse.dropWhile Char.isWhitespace).reverse)

/-- `filter_by_scale` (process_companies.py:37-39): keep companies whose
lower-cased scale (`c.get("scale", "").lower()`) is in the allowed set. -/
def filter_by_scale (companies : List CompanyRec) (allowed_scales : List String) :
    List CompanyRec :=
  companies.filter (fun c => allowed_scales.contains (lowerStr (c.scale.getD "")))

/-- `filter_out_countries` (process_companies.py:42-44): drop companies
whose lower-cased origin country is in the excluded set. -/
def filter_out_countries (companies : List CompanyRec) (excluded_countries : List String) :
    List CompanyRec :=
  companies.filter (fun c => !(excluded_countries.contains (lowerStr (c.origin_country.getD ""))))

/-- The cleaned output record built by `remove_duplicates`
(process_companies.py:56-61): the summit context key is dropped. -/
structure CleanCompany where
  name : Option String
  origin_country : Option String
  field : Option String
  scale : Option String
deriving DecidableEq, Repr

/-- The deduplication key: `company.get("name", "").strip().lower()`
(process_companies.py:52). -/
def normName (name : Option String) : String := lowerStr (stripStr (name.getD ""))

/-- The cleaned projection appended by `remove_duplicates`
(process_companies.py:56-62). -/
def cleanRec (c : CompanyRec) : CleanCompany :=
  ⟨c.name, c.origin_country, c.field, c.scale⟩

/-- The loop of `remove_duplicates` (process_companies.py:49-63) with the
`seen` set made explicit: a company is kept only if its normalized name is
non-empty (Python truthiness of the string) and not seen yet. -/
def removeDupGo (seen : List String) : List CompanyRec → List CleanCompany
  | [] => []
  | c :: rest =>
    match !(normName c.name == "") && !(seen.contains (normName c.name)) with
    | true => cleanRec c :: removeDupGo (normName c.name :: seen) rest
    | false => removeDupGo seen rest

/-- `remove_duplicates` (process_companies.py:47-63). -/
def remove_duplicates (companies : List CompanyRec) : List CleanCompany :=
  removeDupGo [] companies

/-- The sort key of `main` (process_companies.py:96):
`x.get("name", "").lower()` — lower-cased but not stripped. -/
def sortKey (c : CleanCompany) : String := lowerStr (c.name.getD "")

/-- Stable insertion into a sorted list: the new element goes after all
existing elements with a key not greater than its own.  Folding this over
the list from the left is a stable sort, matching Python's stable
`list.sort(key=...)`. -/
def insertSorted (x : CleanCompany) : List CleanCompany → List CleanCompany
  | [] => [x]
  | y :: ys => if sortKey x < sortKey y then x :: y :: ys else y :: insertSorted x ys

/-- Stable sort by `sortKey`, modelling `unique_companies.sort(key=...)`
(process_companies.py:96). -/
def sortCompanies (l : List CleanCompany) : List CleanCompany :=
  l.foldl (fun acc x => insertSorted x acc) []

/-- Default allowed scales of `main` (process_companies.py:70). -/
def allowed_scales : List String := ["startup", "small", "medium"]

/-- Default excluded countries of `main` (process_companies.py:71). -/
def excluded_countries : List String := ["united states"]

/-- The data pipeline of `main` (process_companies.py:66-100): extract,
filter by scale, filter out countries, deduplicate, sort. -/
def processPipeline (summitData : List SummitEntry) : List CleanCompany :=
  sortCompanies
    (remove_duplicates
      (filter_out_countries
        (filter_by_scale (extract_companies summitData) allowed_scales)
        excluded_countries))

/-- The four company records of the C6 example, with only the keys the
example gives them. -/
def c6Entry : SummitEntry :=
  ⟨some "Example Summit",
   some [⟨some "Acme", none, none, none, none⟩,
         ⟨some "ACME ", none, none, none, none⟩,
         ⟨some "Other Co", some "United States", none, none, none⟩,
         ⟨some "Big Corp", none, none, some "enterprise", none⟩]⟩

/-- C6 counterexample. On the literal example input — where the Acme,
"ACME " and Other Co records carry no `scale` key — the default scale
filter (`c.get("scale", "").lower() in {startup, small, medium}`) drops
every record, so the output is empty rather than containing one entry for
"Acme". -/
theorem filter_example_drops_all : processPipeline [c6Entry] = [] := by decide

/-- The C6 example input amended so that the records that are supposed to
survive the scale filter carry an allowed scale ("startup"). -/
def c6EntryAmended : SummitEntry :=
  ⟨some "Example Summit",
   some [⟨some "Acme", none, none, some "startup", none⟩,
         ⟨some "ACME ", none, none, some "startup", none⟩,
         ⟨some "Other Co", some "United States", none, some "startup", none⟩,
         ⟨some "Big Corp", none, none, some "enterprise", none⟩]⟩

/-- C6 amended. With the three non-enterprise example records carrying an
allowed scale, the filter yields exactly one entry for Acme — the first
occurrence's casing "Acme" preserved, the trailing-space duplicate "ACME "
merged away — and excludes "Other Co" (United States) and "Big Corp"
(enterprise). -/
theorem filter_example_dedups_acme :
    processPipeline [c6EntryAmended] =
      [⟨some "Acme", none, none, some "startup"⟩] := by decide

/-- A filesystem as seen by `process_companies.py`: the parsed contents of
the `*.json` files of the results directory, in iteration order, and the
output file `filtered_companies.json`, which lives next to — not inside —
the results directory, so it is never part of the glob that feeds a run. -/
structure FilterFS where
  resultsDir : List (String × List SummitEntry)
  filteredOutput : Option (List CleanCompany)
deriving DecidableEq, Repr

/-- `load_json_files` (process_companies.py:12-19): concatenate the parsed
contents of all result files in iteration order. -/
def load_json_files (fs : FilterFS) : List SummitEntry :=
  (fs.resultsDir.map Prod.snd).flatten

/-- A full run of `main` (process_companies.py:66-100) as a filesystem
transformer: read the results directory, compute the pipeline, write the
output file.  The record list written models the bytes of
`filtered_companies.json`: `json.dump(..., indent=2, ensure_ascii=False)`
is a deterministic function of that list. -/
def mainRun (fs : FilterFS) : FilterFS :=
  ⟨fs.resultsDir, some (processPipeline (load_json_files fs))⟩

/-- C7. The Post-processing Filter is idempotent as a two-run equality:
a run leaves the input directory untouched and its output file outside the
input glob, so running it twice over the same input directory contents (in
the same iteration order) writes byte-identical output — the second run
reproduces the first's filesystem exactly. -/
theorem filter_two_run_idempotent (fs : FilterFS) :
    mainRun (mainRun fs) = mainRun fs ∧
    (mainRun fs).resultsDir = fs.resultsDir ∧
    (mainRun (mainRun fs)).filteredOutput = (mainRun fs).filteredOutput := by
  refine ⟨?_, rfl, ?_⟩ <;> rfl

/-- C10. Deduplication drops every record whose name is missing, empty or
whitespace-only (normalized key `""`) entirely: no output record has a
blank normalized name, and removing the blank-named records from the input
first changes nothing — they are neither kept nor merged with any other
record. -/
theorem remove_duplicates_drops_blank_names (companies : List CompanyRec) :
    (remove_duplicates companies).all (fun c => !(normName c.name == "")) = true ∧
    remove_duplicates companies =
      remove_duplicates (companies.filter (fun c => !(normName c.name == ""))) := by
  suffices h : ∀ seen cs, (removeDupGo seen cs).all (fun c => !(normName c.name == "")) = true ∧
      removeDupGo seen cs = removeDupGo seen (cs.filter (fun c => !(normName c.name == ""))) by
    exact h [] companies
  intro seen cs
  induction cs generalizing seen with
  | nil => exact ⟨rfl, rfl⟩
  | cons c rest ih =>
    cases hn : (normName c.name == "") with
    | true =>
      have hcond : (!(normName c.name == "") && !(List.contains seen (normName c.name))) = false := by
        rw [hn]; rfl
      have hfc : List.filter (fun c => !(normName c.name == "")) (c :: rest) =
          List.filter (fun c => !(normName c.name == "")) rest := by
        simp [List.filter_cons, hn]
      obtain ⟨iha, ihe⟩ := ih seen
      refine ⟨?_, ?_⟩
      · rw [removeDupGo, hcond]
        exact iha
      · rw [removeDupGo, hcond, hfc]
        exact ihe
    | false =>
      have hfc : List.filter (fun c => !(normName c.name == "")) (c :: rest) =
          c :: List.filter (fun c => !(normName c.name == "")) rest := by
        simp [List.filter_cons, hn]
      cases hseen : List.contains seen (normName c.name) with
      | true =>
        have hcond : (!(normName c.name == "") && !(List.contains seen (normName c.name))) = false := by
          rw [hn, hseen]; rfl
        obtain ⟨iha, ihe⟩ := ih seen
        refine ⟨?_, ?_⟩
        · rw [removeDupGo, hcond]
          exact iha
        · rw [removeDupGo, hcond, hfc, removeDupGo, hcond]
          exact ihe
      | false =>
        have hcond : (!(normName c.name == "") && !(List.contains seen (normName c.name))) = true := by
          rw [hn, hseen]; rfl
        obtain ⟨iha, ihe⟩ := ih (normName c.name :: seen)
        refine ⟨?_, ?_⟩
        · rw [removeDupGo, hcond, List.all_cons]
          refine (Bool.and_eq_true _ _).mpr ⟨?_, iha⟩
          show (!(normName (cleanRec c).name == "")) = true
          rw [cleanRec]
          rw [hn]
          rfl
        · rw [removeDupGo, hcond, hfc, removeDupGo, hcond]
          rw [ihe]

/-- The string value of each `CompanyScale` member (src/models/enums.py:6-16). -/
def CompanyScale.value : CompanyScale → String
  | .startup => "startup"
  | .small => "small"
  | .medium => "medium"
  | .large => "large"
  | .enterprise => "enterprise"

/-- The string value of each `CompanyField` member (src/models/enums.py:19-49). -/
def CompanyField.value : CompanyField → String
  | .software => "software"
  | .artificial_intelligence => "artificial_intelligence"
  | .cloud_computing => "cloud_computing"
  | .cybersecurity => "cybersecurity"
  | .data_analytics => "data_analytics"
  | .gaming => "gaming"
  | .hardware => "hardware"
  | .semiconductors => "semiconductors"
  | .telecommunications => "telecommunications"
  | .fintech => "fintech"
  | .healthcare => "healthcare"
  | .e_commerce => "e_commerce"
  | .automotive => "automotive"
  | .aerospace => "aerospace"
  | .energy => "energy"
  | .manufacturing => "manufacturing"
  | .media_entertainment => "media_entertainment"
  | .education => "education"
  | .consulting => "consulting"
  | .other => "other"

/-- The value table of the `CompanyScale` enumeration, in declaration
order. -/
def scaleTable : List (String × CompanyScale) :=
  [("startup", .startup), ("small", .small), ("medium", .medium),
   ("large", .large), ("enterprise", .enterprise)]

/-- The value table of the `CompanyField` enumeration, in declaration
order. -/
def fieldTable : List (String × CompanyField) :=
  [("software", .software), ("artificial_intelligence", .artificial_intelligence),
   ("cloud_computing", .cloud_computing), ("cybersecurity", .cybersecurity),
   ("data_analytics", .data_analytics), ("gaming", .gaming),
   ("hardware", .hardware), ("semiconductors", .semiconductors),
   ("telecommunications", .telecommunications), ("fintech", .fintech),
   ("healthcare", .healthcare), ("e_commerce", .e_commerce),
   ("automotive", .automotive), ("aerospace", .aerospace),
   ("energy", .energy), ("manufacturing", .manufacturing),
   ("media_entertainment", .media_entertainment), ("education", .education),
   ("consulting", .consulting), ("other", .other)]

/-- The member strings of `CompanyScale`. -/
def scaleValues : List String := scaleTable.map Prod.fst

/-- The member strings of `CompanyField`. -/
def fieldValues : List String := fieldTable.map Prod.fst

/-- Pydantic's validation of a string against a closed `str` enum (a
`Company.scale` field): the value must equal one of the member values
exactly; anything else fails validation.  Modelled from pydantic's
documented enum validation, applied to the `CompanyScale` declaration. -/
def parseScale (s : String) : Option CompanyScale :=
  (scaleTable.find? (fun p => p.1 == s)).map Prod.snd

/-- Enum validation for `Company.field`, as for `parseScale`. -/
def parseField (s : String) : Option CompanyField :=
  (fieldTable.find? (fun p => p.1 == s)).map Prod.snd

/-- Validation of a whole `Company` extraction result
(src/models/output/company.py:9-22 with the base config of
src/models/base.py): both enum fields must parse; the plain string fields
are stripped (`str_strip_whitespace=True`). -/
def parseCompany (name origin_country field scale : String) : Option Company :=
  match parseField field, parseScale scale with
  | some f, some sc => some ⟨stripStr name, stripStr origin_country, f, sc⟩
  | _, _ => none

lemma find?_table_isSome {α : Type} (table : List (String × α)) (s : String) :
    (((table.find? (fun p => p.1 == s)).map Prod.snd).isSome = true) ↔ s ∈ table.map Prod.fst := by
  induction table with
  | nil => simp [List.find?]
  | cons p rest ih =>
    simp only [List.find?, List.map_cons, List.mem_cons]
    cases hp : (p.1 == s) with
    | true =>
      have : p.1 = s := by simpa using hp
      simp [this]
    | false =>
      have hne : ¬ s = p.1 := by
        intro h
        rw [h] at hp
        simp at hp
      simp [ih, hne]

lemma find?_table_value {α : Type} (table : List (String × α)) (val : α → String)
    (htab : ∀ p ∈ table, val p.2 = p.1) (s : String) (v : α)
    (h : (table.find? (fun p => p.1 == s)).map Prod.snd = some v) : val v = s := by
  induction table with
  | nil => simp [List.find?] at h
  | cons p rest ih =>
    rw [List.find?] at h
    cases hp : (p.1 == s) with
    | true =>
      rw [hp] at h
      have hv : p.2 = v := by simpa using h
      have hps : p.1 = s := by simpa using hp
      rw [← hv, htab p (by simp), hps]
    | false =>
      rw [hp] at h
      exact ih (fun q hq => htab q (by simp [hq])) h

/-- C8. The enumerations are closed sets validated at parse time: a scale
string parses iff it is one of the five `CompanyScale` values and a field
string parses iff it is one of the 19 `CompanyField` sector values plus
"other" (20 in all); a successful parse returns the member whose value is
exactly the input (no coercion); and a `Company` whose field or scale
names any out-of-set value fails validation with no result. -/
theorem enum_validation_closed :
    (∀ s : String, ((parseScale s).isSome = true) ↔ s ∈ scaleValues) ∧
    (∀ s v, parseScale s = some v → CompanyScale.value v = s) ∧
    (∀ s : String, ((parseField s).isSome = true) ↔ s ∈ fieldValues) ∧
    (∀ s v, parseField s = some v → CompanyField.value v = s) ∧
    scaleValues = ["startup", "small", "medium", "large", "enterprise"] ∧
    fieldValues.length = 20 ∧ "other" ∈ fieldValues ∧
    (∀ name country f sc : String, f ∉ fieldValues ∨ sc ∉ scaleValues →
      parseCompany name country f sc = none) := by
  have hscale : ∀ p ∈ scaleTable, CompanyScale.value p.2 = p.1 := by decide
  have hfield : ∀ p ∈ fieldTable, CompanyField.value p.2 = p.1 := by decide
  refine ⟨fun s => find?_table_isSome scaleTable s,
    fun s v h => find?_table_value scaleTable CompanyScale.value hscale s v h,
    fun s => find?_table_isSome fieldTable s,
    fun s v h => find?_table_value fieldTable CompanyField.value hfield s v h,
    by decide, by decide, by decide, ?_⟩
  intro name country f sc hout
  rcases hout with hf | hsc
  · have : (parseField f).isSome = false := by
      cases h : (parseField f).isSome with
      | true => exact absurd ((find?_table_isSome fieldTable f).mp h) hf
      | false => rfl
    rw [parseCompany]
    cases hpf : parseField f with
    | none => rfl
    | some v => rw [hpf] at this; simp at this
  · have : (parseScale sc).isSome = false := by
      cases h : (parseScale sc).isSome with
      | true => exact absurd ((find?_table_isSome scaleTable sc).mp h) hsc
      | false => rfl
    rw [parseCompany]
    cases hpf : parseField f with
    | none => rfl
    | some v =>
      cases hps : parseScale sc with
      | none => rfl
      | some w => rw [hps] at this; simp at this

/-- Witness for C8 at concrete values: the out-of-set field value
"blockchain" makes a whole `Company` fail validation. -/
theorem enum_validation_closed_witness :
    ("blockchain" ∉ fieldValues ∨ "startup" ∉ scaleValues) ∧
    parseCompany "Acme" "Finland" "blockchain" "startup" = none :=
  ⟨Or.inl (by decide),
   enum_validation_closed.2.2.2.2.2.2.2 "Acme" "Finland" "blockchain" "startup"
     (Or.inl (by decide))⟩

/-- The pydantic model configuration options the repository's models rely
on.  `frozen` controls whether attribute assignment raises;
`validate_assignment` controls whether an assigned value is re-validated. -/
structure ModelConfig where
  str_strip_whitespace : Bool
  validate_assignment : Bool
  extra_forbid : Bool
  frozen : Bool
deriving DecidableEq, Repr

/-- The shared `model_config` of every entity model
(src/models/base.py:6-13): `ConfigDict(str_strip_whitespace=True,
validate_assignment=True, extra="forbid")`.  `frozen` is not set, so it
keeps pydantic's default `False`. -/
def appModelConfig : ModelConfig :=
  { str_strip_whitespace := true
    validate_assignment := true
    extra_forbid := true
    frozen := false }

/-- Pydantic v2 attribute assignment on a constructed model, modelled from
the library's documented behavior for a `str` field (here `Summit.name`):
if `frozen=True` the assignment raises (no updated model, `none`);
otherwise the assignment is accepted, the new value re-validated under
`validate_assignment=True` (a `str` field is stripped when
`str_strip_whitespace=True`) and stored. -/
def Summit.setName (cfg : ModelConfig) (s : Summit) (newName : String) : Option Summit :=
  if cfg.frozen then none
  else some { s with name := if cfg.str_strip_whitespace then stripStr newName else newName }

/-- A concrete constructed entity for the C9 counterexample. -/
def exampleSummit : Summit :=
  ⟨"Web Summit 2025", "November 10-13, 2025", ["AI", "Cloud"], some "https://websummit.com", none⟩

/-- C9 counterexample. Under the repository's actual model configuration —
which sets `validate_assignment=True` but not `frozen=True` — assigning to
a field of a constructed entity is accepted (validated and stored), not
rejected: the assignment on a concrete `Summit` returns an updated model
rather than failing. -/
theorem summit_assignment_not_rejected :
    Summit.setName appModelConfig exampleSummit "Changed" ≠ none ∧
    Summit.setName appModelConfig exampleSummit "Changed" =
      some ⟨"Changed", "November 10-13, 2025", ["AI", "Cloud"], some "https://websummit.com", none⟩ := by
  constructor
  · decide
  · decide

/-- C9 amended. Entity records are plain value records that no operation of
the program reassigns after construction, but they are not frozen: under
the repository's model configuration an assignment to a field of a
constructed entity is re-validated (the string is stripped) and applied —
it is rejected only under a `frozen=True` configuration, which the
repository does not set. -/
theorem entity_assignment_validated_not_rejected (s : Summit) (n : String) :
    Summit.setName appModelConfig s n = some { s with name := stripStr n } ∧
    (∀ cfg : ModelConfig, (Summit.setName cfg s n = none ↔ cfg.frozen = true)) ∧
    appModelConfig.frozen = false := by
  refine ⟨rfl, ?_, rfl⟩
  intro cfg
  cases hf : cfg.frozen with
  | true => simp [Summit.setName, hf]
  | false => simp [Summit.setName, hf]

end AgenticSearch
